import Mathlib

/-!
# Verification of the attendance-admin front-end logic (`static/js/main.js`)

Shallow embedding of the client-side logic of the attendance administration
tool: the chat markdown-table formatter (`formatAiMessage`, with
`escapeHtml`), the students/records list-view controllers, and the
mark-attendance session controller.  Strings are modelled as `List Char`
(JavaScript strings are sequences of code points for the operations used
here), DOM/global state as explicit structures, and each event handler as a
state-transition function that also emits the observable requests it issues.
-/

namespace MainJs

/-! ## Character classes used by the JavaScript regexes -/

/-- The characters matched by JavaScript `\s` (used by `.replace(/\s/g,'')`
and, as the same set, removed by `String.prototype.trim`). -/
def jsSpace (c : Char) : Bool :=
  c = ' ' || c = '\t' || c = '\n' || c.val = 0xb || c.val = 0xc || c = '\r' ||
  c.val = 0xa0 || c.val = 0x1680 || (0x2000 ≤ c.val && c.val ≤ 0x200a) ||
  c.val = 0x2028 || c.val = 0x2029 || c.val = 0x202f || c.val = 0x205f ||
  c.val = 0x3000 || c.val = 0xfeff

/-- The characters matched by JavaScript `.` (any character that is not a
line terminator: LF, CR, LS, PS). -/
def dotChar (c : Char) : Bool :=
  !(c = '\n' || c = '\r' || c.val = 0x2028 || c.val = 0x2029)

/-! ## `escapeHtml` (main.js lines 15-20)

`escapeHtml` assigns the string to a `div`'s `textContent` and reads back
`innerHTML`; HTML text-node serialization replaces `&`, `<`, `>` and U+00A0
by their entities and leaves every other character unchanged. -/

/-- Per-character HTML text-node escaping. -/
def escChar (c : Char) : List Char :=
  if c = '&' then "&amp;".data
  else if c = '<' then "&lt;".data
  else if c = '>' then "&gt;".data
  else if c.val = 0xa0 then "&nbsp;".data
  else [c]

/-- `escapeHtml` on character lists. -/
def escapeL (s : List Char) : List Char := s.flatMap escChar

/-- `escapeHtml` from main.js (on an already-non-null string). -/
def escapeHtml (s : String) : String := String.mk (escapeL s.data)

/-! ## The bold substitution `s.replace(/\*\*([^*]+)\*\*/g, '<strong>$1</strong>')`

The JavaScript global replace scans left to right; at a position starting
with `**` it matches `[^*]+` greedily up to the next `*` and then requires
a closing `**` exactly there (no backtracking past a `*` is possible since
`[^*]` cannot match `*`); on failure it advances one character.  `fuel`
bounds the recursion by the length of the input so that the function is
structurally recursive and kernel-evaluable. -/

def strongOpen : List Char := "<strong>".data

def strongClose : List Char := "</strong>".data

def boldGo : Nat → List Char → List Char
  | 0, s => s
  | _ + 1, [] => []
  | f + 1, c :: cs =>
    if c = '*' ∧ cs.head? = some '*' then
      let rest := cs.tail
      let t := rest.takeWhile (fun x => x ≠ '*')
      let u := rest.dropWhile (fun x => x ≠ '*')
      if t ≠ [] ∧ u.head? = some '*' ∧ u.tail.head? = some '*' then
        strongOpen ++ t ++ strongClose ++ boldGo f u.tail.tail
      else c :: boldGo f cs
    else c :: boldGo f cs

/-- The bold-markdown substitution applied by `formatAiMessage`. -/
def boldSub (s : List Char) : List Char := boldGo s.length s

/-! ## Splitting on a character (JavaScript `String.prototype.split`) -/

/-- Core of `split`: first piece before `sep`, and the remaining pieces. -/
def splitChCore (sep : Char) : List Char → List Char × List (List Char)
  | [] => ([], [])
  | c :: cs =>
    if c = sep then ([], (splitChCore sep cs).1 :: (splitChCore sep cs).2)
    else (c :: (splitChCore sep cs).1, (splitChCore sep cs).2)

/-- JavaScript `s.split(sep)` for a single-character separator. -/
def splitCh (sep : Char) (s : List Char) : List (List Char) :=
  (splitChCore sep s).1 :: (splitChCore sep s).2

/-- `s.split('\n')`. -/
def splitLines (s : List Char) : List (List Char) := splitCh '\n' s

/-- Join pieces back with `'\n'` (JavaScript `arr.join('\n')`). -/
def joinNl : List (List Char) → List Char
  | [] => []
  | [l] => l
  | l :: ls => l ++ '\n' :: joinNl ls

/-- `s.replace(/\n/g, '<br>')`. -/
def replaceNl (s : List Char) : List Char :=
  s.flatMap (fun c => if c = '\n' then "<br>".data else [c])

/-- `String.prototype.trim` (removes the `jsSpace` set on both ends). -/
def trimJs (s : List Char) : List Char :=
  ((s.dropWhile jsSpace).reverse.dropWhile jsSpace).reverse

/-! ## Table detection (main.js lines 499-519) -/

/-- The shape `/^\|X+\|$/` with every interior character satisfying `p`:
first character `|`, last character `|`, at least one character between
them. -/
def pipeShape (p : Char → Bool) (l : List Char) : Bool :=
  decide (3 ≤ l.length) && (l.head? == some '|') && (l.getLast? == some '|')
    && ((l.drop 1).dropLast.all p)

/-- The test `line.match(/^\|.+\|$/)`: first character `|`, last character
`|`, at least one character between them, all interior characters matched by
`.` (not line terminators).  No trimming is applied. -/
def isRowLine (l : List Char) : Bool := pipeShape dotChar l

/-- The character class `[\-\:|]` of the separator regex. -/
def sepChar (c : Char) : Bool := c = '-' || c = ':' || c = '|'

/-- The separator test
`row.replace(/\s/g,'').match(/^\|[\-\:|]+\|$/)`: after removing all
whitespace, the row is a pipe, one or more of `-` `:` `|`, and a pipe. -/
def isSepRow (row : List Char) : Bool :=
  pipeShape sepChar (row.filter (fun c => !jsSpace c))

/-- `row.split('|').slice(1, -1).map(c => c.trim())`. -/
def cellsOf (row : List Char) : List (List Char) :=
  (((splitCh '|' row).drop 1).dropLast).map trimJs

/-- The structured table built from one captured block of row lines. -/
structure Tbl where
  header : Option (List (List Char))
  body : List (List (List Char))
deriving DecidableEq, Repr

/-- Build the table from the captured rows: if there are at least two rows
and the second passes the separator test, the second row is dropped and the
first becomes the header; otherwise all rows are body rows. -/
def mkTable (rows : List (List Char)) : Tbl :=
  if 2 ≤ rows.length ∧ isSepRow (rows.getD 1 []) then
    { header := some (cellsOf (rows.headD [])),
      body := (rows.drop 2).map cellsOf }
  else
    { header := none, body := rows.map cellsOf }

/-- One output item of the scanning loop: a verbatim text line or a table. -/
inductive Item where
  | text (l : List Char)
  | table (t : Tbl)
deriving DecidableEq, Repr

/-- The scanning loop over the lines: a run of consecutive row lines is
captured into one table, every other line is kept as text. -/
def parseGo : Nat → List (List Char) → List Item
  | 0, ls => ls.map Item.text
  | _ + 1, [] => []
  | f + 1, l :: ls =>
    if isRowLine l then
      Item.table (mkTable (l :: ls.takeWhile isRowLine))
        :: parseGo f (ls.dropWhile isRowLine)
    else
      Item.text l :: parseGo f ls

/-- The scanning loop of `formatAiMessage`. -/
def parseItems (ls : List (List Char)) : List Item := parseGo ls.length ls

/-- `<tr>` markup for one row with the given cell tag (`th` or `td`). -/
def rowHtml (tag : List Char) (cs : List (List Char)) : List Char :=
  "<tr>".data ++
    (cs.map (fun c => '<' :: tag ++ '>' :: c ++ '<' :: '/' :: tag ++ ['>'])).flatten
    ++ "</tr>".data

/-- The `<table class="chat-table">` markup built for one captured block. -/
def tableHtml (t : Tbl) : List Char :=
  "<table class=\"chat-table\">".data ++
    (match t.header with
     | some hs => rowHtml "th".data hs
     | none => []) ++
    (t.body.map (rowHtml "td".data)).flatten ++ "</table>".data

/-- Render one scanned item: text lines verbatim, tables as markup. -/
def renderItem : Item → List Char
  | .text l => l
  | .table t => tableHtml t

/-- `formatAiMessage` (main.js lines 493-528) on character lists: escape,
bold substitution, split into lines, capture pipe-row runs into tables,
join with `'\n'`, convert newlines to `<br>`. -/
def formatL (s : List Char) : List Char :=
  let ls := splitLines (boldSub (escapeL s))
  replaceNl (joinNl ((parseItems ls).map renderItem))

/-- `formatAiMessage` from main.js (on an already-non-null string). -/
def formatAiMessage (raw : String) : String := String.mk (formatL raw.data)

/-! ## Students list controller (main.js lines 165-234)

Module globals `studentsPage`, `studentsPerPage`, `studentsTotal`,
`studentsSectionId`, `studentsSearch`, `studentsSortBy`, mutated by the
handlers wired in `renderStudents` and by the pagination buttons created in
`loadStudentsList`.  Each handler runs to completion and then issues one
fetch carrying the current query state; an event is modelled as its handler
plus (for responses) the state update it performs.  The pagination buttons
use the `totalPages` computed from the last response; under the
single-threaded, request-completes-before-next-action model of the spec this
equals `ceil(total / perPage) || 1` over the current state. -/

/-- Query state sent by `loadStudentsList` (`/api/students?...`). -/
structure SQuery where
  page : Nat
  perPage : Nat
  sortBy : String
  sectionId : Option Nat
  search : String
deriving DecidableEq, Repr

/-- Students list controller state (the module globals). -/
structure SState where
  page : Nat
  perPage : Nat
  total : Nat
  sectionId : Option Nat
  search : String
  sortBy : String
deriving DecidableEq, Repr

/-- Initial values of the students globals (main.js line 166). -/
def initS : SState :=
  { page := 1, perPage := 25, total := 0, sectionId := none,
    search := "", sortBy := "roll_no" }

/-- The query `loadStudentsList` builds from the current globals. -/
def querifyS (st : SState) : SQuery :=
  { page := st.page, perPage := st.perPage, sortBy := st.sortBy,
    sectionId := st.sectionId, search := st.search }

/-- Observable requests issued by the students controller. -/
inductive ActS where
  | fetchQ (q : SQuery)
deriving DecidableEq, Repr

/-- `Math.ceil(total / perPage) || 1`. -/
def totalPagesS (st : SState) : Nat :=
  let c := (st.total + st.perPage - 1) / st.perPage
  if c = 0 then 1 else c

/-- User events on the students list view. -/
inductive SEv where
  | search (s : String)
  | filter (o : Option Nat)
  | perPage (n : Nat)
  | sort (c : String)
  | prev
  | next
  | response (total : Nat)
deriving DecidableEq, Repr

/-- One event handler of the students list view. -/
def stepS (st : SState) : SEv → SState × List ActS
  | .search s =>
    let st' := { st with search := s, page := 1 }
    (st', [.fetchQ (querifyS st')])
  | .filter o =>
    let st' := { st with sectionId := o, page := 1 }
    (st', [.fetchQ (querifyS st')])
  | .perPage n =>
    let st' := { st with perPage := n, page := 1 }
    (st', [.fetchQ (querifyS st')])
  | .sort c =>
    let st' := { st with sortBy := c }
    (st', [.fetchQ (querifyS st')])
  | .prev =>
    let st' := if 1 < st.page then { st with page := st.page - 1 } else st
    (st', [.fetchQ (querifyS st')])
  | .next =>
    let st' := if st.page < totalPagesS st then { st with page := st.page + 1 } else st
    (st', [.fetchQ (querifyS st')])
  | .response t => ({ st with total := t }, [])

/-! ## Attendance records controller (main.js lines 404-455)

Globals `recordsPage`, `recordsPerPage`, `recordsSearch` plus the DOM
values of the section/date/session selectors, read by `loadRecords` on each
call.  `loadRecords` issues no fetch when section or date is unset. -/

/-- Query state sent by `loadRecords` (`/api/attendance/records?...`). -/
structure RQuery where
  sectionId : Nat
  date : String
  session : String
  page : Nat
  perPage : Nat
  search : String
deriving DecidableEq, Repr

/-- Records view state: globals plus the three selector DOM values. -/
structure RState where
  selSection : Option Nat
  selDate : String
  selSession : String
  page : Nat
  perPage : Nat
  search : String
  total : Nat
deriving DecidableEq, Repr

/-- JavaScript truthiness of `parseInt(select.value)` for a section id. -/
def jsTruthyNat : Option Nat → Bool
  | none => false
  | some n => n ≠ 0

/-- The validity test in `loadRecords`: `if (!sectionId || !dateStr)`. -/
def recValid (st : RState) : Bool :=
  jsTruthyNat st.selSection && st.selDate ≠ ""

/-- The query `loadRecords` builds from the current state. -/
def querifyR (st : RState) : RQuery :=
  { sectionId := st.selSection.getD 0, date := st.selDate,
    session := st.selSession, page := st.page, perPage := st.perPage,
    search := st.search }

/-- Observable requests issued by the records controller. -/
inductive ActR where
  | fetchQ (q : RQuery)
deriving DecidableEq, Repr

/-- The fetch `loadRecords` issues (none when the filter is invalid). -/
def loadRecordsActs (st : RState) : List ActR :=
  if recValid st then [.fetchQ (querifyR st)] else []

/-- `Math.ceil(total / perPage) || 1` for the records view. -/
def totalPagesR (st : RState) : Nat :=
  let c := (st.total + st.perPage - 1) / st.perPage
  if c = 0 then 1 else c

/-- User events on the records view.  `selChange` covers the
section/date/session selectors (their shared `onchange` resets the page and
reloads). -/
inductive REv where
  | selChange (o : Option Nat) (d : String) (sess : String)
  | search (s : String)
  | perPage (n : Nat)
  | loadClick
  | prev
  | next
  | response (total : Nat)
deriving DecidableEq, Repr

/-- One event handler of the records view. -/
def stepR (st : RState) : REv → RState × List ActR
  | .selChange o d sess =>
    let st' := { st with selSection := o, selDate := d, selSession := sess, page := 1 }
    (st', loadRecordsActs st')
  | .search s =>
    let st' := { st with search := s, page := 1 }
    (st', loadRecordsActs st')
  | .perPage n =>
    let st' := { st with perPage := n, page := 1 }
    (st', loadRecordsActs st')
  | .loadClick => (st, loadRecordsActs st)
  | .prev =>
    let st' := if 1 < st.page then { st with page := st.page - 1 } else st
    (st', loadRecordsActs st')
  | .next =>
    let st' := if st.page < totalPagesR st then { st with page := st.page + 1 } else st
    (st', loadRecordsActs st')
  | .response t => ({ st with total := t }, [])

/-! ## Mark-attendance session controller (main.js lines 291-402)

Globals `currentMarkSectionId/Date/Session`, `markAttendanceStudents`,
`markEditingMode`, plus the DOM values of the section/date/session
selectors, the search box and the save button's disabled flag.  Each
asynchronous operation is folded with its outcome into one atomic event
(the spec's single-threaded request/response model: no user action
interleaves with an in-flight request). -/

/-- A student's attendance status. -/
inductive Status where
  | present
  | absent
deriving DecidableEq, Repr

/-- Per-student entry of the roster response (`status` may be missing;
`s.status || 'present'` defaults it). -/
structure SEntry where
  student_id : Nat
  roll_no : String
  name : String
  status : Option Status
deriving DecidableEq, Repr

/-- In-memory roster entry (`markAttendanceStudents` elements). -/
structure MEntry where
  student_id : Nat
  roll_no : String
  name : String
  status : Status
deriving DecidableEq, Repr

/-- Mark-attendance controller state. -/
structure MarkState where
  selSection : Option Nat
  selDate : String
  selSession : String
  curSection : Option Nat
  curDate : Option String
  curSession : Option String
  roster : List MEntry
  editing : Bool
  saveEnabled : Bool
  searchText : String
deriving DecidableEq, Repr

/-- Initial mark-attendance state (globals start null/empty/false, the save
button starts disabled, the date selector starts at today's date and the
session selector at `morning`). -/
def initMark (today : String) : MarkState :=
  { selSection := none, selDate := today, selSession := "morning",
    curSection := none, curDate := none, curSession := none,
    roster := [], editing := false, saveEnabled := false, searchText := "" }

/-- JavaScript truthiness of the nullable key strings
(`currentMarkDate`, `currentMarkSession`). -/
def jsTruthyStr : Option String → Bool
  | none => false
  | some s => s ≠ ""

/-- Observable requests of the mark controller. -/
inductive ActM where
  | fetchRoster (sectionId : Nat) (date : String) (session : String)
  | post (sectionId : Nat) (date : String) (session : String) (absentIds : List Nat)
  | toastOk
  | toastErr
deriving DecidableEq, Repr

/-- Map one response entry to a roster entry
(`{ student_id, roll_no, name, status: s.status || 'present' }`). -/
def toMEntry (s : SEntry) : MEntry :=
  { student_id := s.student_id, roll_no := s.roll_no, name := s.name,
    status := s.status.getD .present }

/-- `loadMarkAttendance` with its response outcome folded in (`ro = none`
models a failed request). -/
def loadMark (st : MarkState) (ro : Option (List SEntry)) : MarkState × List ActM :=
  if jsTruthyNat st.selSection ∧ st.selDate ≠ "" then
    let st1 := { st with curSection := st.selSection, curDate := some st.selDate,
                         curSession := some st.selSession, saveEnabled := false }
    match ro with
    | some data =>
      let roster := data.map toMEntry
      ({ st1 with roster := roster,
                  editing := roster.any (fun e => e.status ≠ .present),
                  saveEnabled := true },
       [.fetchRoster (st.selSection.getD 0) st.selDate st.selSession])
    | none =>
      ({ st1 with saveEnabled := true },
       [.fetchRoster (st.selSection.getD 0) st.selDate st.selSession, .toastErr])
  else (st, [.toastErr])

/-- The guard of `saveMarkAttendance`:
`if (!currentMarkSectionId || !currentMarkDate || !currentMarkSession) return`. -/
def saveGuard (st : MarkState) : Bool :=
  jsTruthyNat st.curSection && jsTruthyStr st.curDate && jsTruthyStr st.curSession

/-- The list of absent student ids transmitted by `saveMarkAttendance`. -/
def absentIds (st : MarkState) : List Nat :=
  (st.roster.filter (fun s => s.status == Status.absent)).map (fun s => s.student_id)

/-- `saveMarkAttendance` with the save outcome `ok` and, on success, the
outcome `ro` of the reload it triggers, folded in.  The save button is only
clickable while enabled (disabled buttons fire no events; the Ctrl+S
handler checks the flag explicitly). -/
def saveMark (st : MarkState) (ok : Bool) (ro : Option (List SEntry)) :
    MarkState × List ActM :=
  if ¬ st.saveEnabled then (st, [])
  else if ¬ saveGuard st then (st, [])
  else if ok then
    ((loadMark { st with saveEnabled := true } ro).1,
      ActM.post (st.curSection.getD 0) (st.curDate.getD "")
          (st.curSession.getD "") (absentIds st)
        :: .toastOk :: (loadMark { st with saveEnabled := true } ro).2)
  else ({ st with saveEnabled := true },
    [ActM.post (st.curSection.getD 0) (st.curDate.getD "")
      (st.curSession.getD "") (absentIds st), .toastErr])

/-- Toggle the first roster entry with the given id (the click handler
looks the record up with `find` and flips it). -/
def flipFirst (id : Nat) : List MEntry → List MEntry
  | [] => []
  | e :: es =>
    if e.student_id = id then
      { e with status := if e.status = .present then .absent else .present } :: es
    else e :: flipFirst id es

/-- User events on the mark-attendance view, asynchronous outcomes folded
in. -/
inductive MEv where
  | pageEnter (today : String)
  | selChange (o : Option Nat) (d : String) (sess : String)
  | loadClick (ro : Option (List SEntry))
  | toggle (id : Nat)
  | allPresent
  | allAbsent
  | search (s : String)
  | saveClick (ok : Bool) (ro : Option (List SEntry))
deriving DecidableEq, Repr

/-- One event handler of the mark-attendance view. -/
def stepMark (st : MarkState) : MEv → MarkState × List ActM
  | .pageEnter today =>
    ({ st with selSection := none, selDate := today, selSession := "morning",
               searchText := "", saveEnabled := false }, [])
  | .selChange o d sess =>
    ({ st with selSection := o, selDate := d, selSession := sess,
               saveEnabled := false }, [])
  | .loadClick ro => loadMark st ro
  | .toggle id => ({ st with roster := flipFirst id st.roster }, [])
  | .allPresent =>
    ({ st with roster := st.roster.map (fun e => { e with status := .present }) }, [])
  | .allAbsent =>
    ({ st with roster := st.roster.map (fun e => { e with status := .absent }) }, [])
  | .search s => ({ st with searchText := s }, [])
  | .saveClick ok ro => saveMark st ok ro

/-- Run a sequence of mark-attendance events from the initial state. -/
def runMark (today : String) (es : List MEv) : MarkState :=
  es.foldl (fun st e => (stepMark st e).1) (initMark today)

/-- The summary derived by `updateMarkSummary`: roster size. -/
def markTotal (st : MarkState) : Nat := st.roster.length

/-- The summary derived by `updateMarkSummary`: count with status present. -/
def markPresent (st : MarkState) : Nat :=
  (st.roster.filter (fun s => s.status == Status.present)).length

/-- The summary derived by `updateMarkSummary`: `total - present`. -/
def markAbsent (st : MarkState) : Nat := markTotal st - markPresent st

/-! ## Specification-side definitions

Used only to compare the specification's wording with the behaviour of the
code; each follows the words of the spec, not the source. -/

/-- The specification's separator condition, as worded: the second row,
"with all whitespace removed, consists only of pipes, dashes, and colons". -/
def specSeparatorOnly (row : List Char) : Bool :=
  (row.filter (fun c => !jsSpace c)).all sepChar

/-- The specification's table-row shape, as worded: "after trimming, it
begins and ends with a pipe character and contains at least one interior
character". -/
def specRowAfterTrim (l : List Char) : Bool :=
  let t := trimJs l
  decide (3 ≤ t.length) && (t.head? == some '|') && (t.getLast? == some '|')

/-! ## Relations used by the no-table-row preservation proof -/

/-- A line that starts with `|`, ends with `|` and has length at least 3
(the structural part of the row-line test). -/
def rowishP (l : List Char) : Prop :=
  l.head? = some '|' ∧ l.getLast? = some '|' ∧ 3 ≤ l.length

/-- Relation between a line of the input of the bold substitution and the
corresponding line of its output: the output line is structurally a row
only if the input line is, and every non-`*` character of the input line
still occurs in the output line. -/
def GRel (l l' : List Char) : Prop :=
  (rowishP l' → rowishP l) ∧ ∀ x ∈ l, x ≠ '*' → x ∈ l'

/-- Strengthening of `GRel` for the first line, where later characters may
still be prepended: emptiness, a final pipe, and two-or-more length with a
final pipe all transfer from the output line back to the input line. -/
def FRel (l l' : List Char) : Prop :=
  GRel l l' ∧ (l' = [] → l = []) ∧
  (l'.getLast? = some '|' → l.getLast? = some '|') ∧
  (2 ≤ l'.length → l'.getLast? = some '|' → 2 ≤ l.length)

/-- Invariant of the mark-attendance controller: whenever the save button
is enabled, the saved key equals the selector key and is valid (load is the
only transition that enables saving, and it copies the selectors into the
current key after validating them). -/
def markInv (st : MarkState) : Prop :=
  st.saveEnabled = true →
    jsTruthyNat st.selSection = true ∧ st.selDate ≠ "" ∧
    st.curSection = st.selSection ∧ st.curDate = some st.selDate ∧
    st.curSession = some st.selSession

/-! ## Concrete example states (used to instantiate the general theorems) -/

/-- A records view with a valid filter on its first page and no rows. -/
def exampleRecordsState : RState :=
  { selSection := some 1, selDate := "2026-01-01", selSession := "morning",
    page := 1, perPage := 25, search := "", total := 0 }

/-- A mark-attendance state in `Ready` with a loaded two-student roster. -/
def exampleMarkReady : MarkState :=
  { selSection := some 1, selDate := "2026-01-01", selSession := "morning",
    curSection := some 1, curDate := some "2026-01-01",
    curSession := some "morning",
    roster := [{ student_id := 7, roll_no := "1", name := "A", status := .absent },
               { student_id := 8, roll_no := "2", name := "B", status := .present }],
    editing := true, saveEnabled := true, searchText := "" }

/-- Selecting a key and loading a roster where student 7 is absent. -/
def exampleMarkEvents : List MEv :=
  [.selChange (some 1) "2026-01-01" "morning",
   .loadClick (some
     [{ student_id := 7, roll_no := "1", name := "A", status := some .absent },
      { student_id := 8, roll_no := "2", name := "B", status := none }])]

/-! # Lemmas -/

/-! ## General list helpers -/

theorem dropWhile_len_le (p : Char → Bool) (l : List Char) :
    (l.dropWhile p).length ≤ l.length := by
  induction l with
  | nil => simp [List.dropWhile]
  | cons c cs ih =>
    by_cases h : p c
    · simp only [List.dropWhile, h]
      exact Nat.le_succ_of_le ih
    · simp [List.dropWhile, h]

theorem forall₂_append {R : List Char → List Char → Prop}
    {as bs cs ds : List (List Char)} (h1 : List.Forall₂ R as bs)
    (h2 : List.Forall₂ R cs ds) : List.Forall₂ R (as ++ cs) (bs ++ ds) := by
  induction h1 with
  | nil => exact h2
  | cons hr _ ih => exact List.Forall₂.cons hr ih

theorem forall₂_mem_right {R : List Char → List Char → Prop}
    {as bs : List (List Char)} {b : List Char} (h1 : List.Forall₂ R as bs)
    (h : b ∈ bs) : ∃ a ∈ as, R a b := by
  induction h1 with
  | nil => cases h
  | cons hr _ ih =>
    rcases List.mem_cons.mp h with h | h
    · exact ⟨_, List.mem_cons_self _ _, h ▸ hr⟩
    · rcases ih h with ⟨a, ha, hra⟩
      exact ⟨a, List.mem_cons_of_mem _ ha, hra⟩

/-! ## Splitting and joining lines -/

theorem splitChCore_cons_sep (sep : Char) (cs : List Char) :
    splitChCore sep (sep :: cs) =
      ([], (splitChCore sep cs).1 :: (splitChCore sep cs).2) := by
  simp [splitChCore]

theorem splitChCore_cons_ne (sep c : Char) (cs : List Char) (h : c ≠ sep) :
    splitChCore sep (c :: cs) =
      (c :: (splitChCore sep cs).1, (splitChCore sep cs).2) := by
  simp [splitChCore, h]

theorem splitChCore_noSep (sep : Char) (a : List Char)
    (h : ∀ c ∈ a, c ≠ sep) : splitChCore sep a = (a, []) := by
  induction a with
  | nil => rfl
  | cons c cs ih =>
    rw [splitChCore_cons_ne sep c cs (h c (List.mem_cons_self c cs)),
      ih (fun x hx => h x (List.mem_cons_of_mem c hx))]

theorem splitChCore_append (sep : Char) (a b : List Char) :
    splitChCore sep (a ++ b) =
      if (splitChCore sep a).2 = [] then
        ((splitChCore sep a).1 ++ (splitChCore sep b).1, (splitChCore sep b).2)
      else
        ((splitChCore sep a).1,
          (splitChCore sep a).2.dropLast ++
            ((splitChCore sep a).2.getLastD [] ++ (splitChCore sep b).1) ::
              (splitChCore sep b).2) := by
  induction a with
  | nil => simp [splitChCore]
  | cons c cs ih =>
    by_cases hc : c = sep
    · subst hc
      rw [List.cons_append, splitChCore_cons_sep, splitChCore_cons_sep]
      rw [ih]
      by_cases h2 : (splitChCore c cs).2 = []
      · simp [h2]
      · have hne : (splitChCore c cs).1 :: (splitChCore c cs).2 ≠ [] := by simp
        simp only [h2, if_neg h2, if_neg hne]
        rcases hx : (splitChCore c cs).2 with _ | ⟨y, ys⟩
        · exact absurd hx h2
        · simp
    · rw [List.cons_append, splitChCore_cons_ne sep c _ hc,
        splitChCore_cons_ne sep c _ hc, ih]
      by_cases h2 : (splitChCore sep cs).2 = []
      · simp [h2]
      · simp [h2]

theorem splitChCore_append_noSep (sep : Char) (a b : List Char)
    (h : ∀ c ∈ a, c ≠ sep) :
    splitChCore sep (a ++ b) =
      (a ++ (splitChCore sep b).1, (splitChCore sep b).2) := by
  rw [splitChCore_append, splitChCore_noSep sep a h]
  simp

theorem joinNl_cons (l : List Char) (y : List Char) (ys : List (List Char)) :
    joinNl (l :: y :: ys) = l ++ '\n' :: joinNl (y :: ys) := rfl

theorem joinNl_splitCore (s : List Char) :
    joinNl ((splitChCore '\n' s).1 :: (splitChCore '\n' s).2) = s := by
  induction s with
  | nil => rfl
  | cons c cs ih =>
    by_cases hc : c = '\n'
    · subst hc
      rw [splitChCore_cons_sep, joinNl_cons, List.nil_append, ih]
    · rw [splitChCore_cons_ne '\n' c cs hc]
      rcases hx : (splitChCore '\n' cs).2 with _ | ⟨y, ys⟩
      · rw [hx] at ih
        simpa [joinNl] using congrArg (c :: ·) ih
      · rw [hx] at ih
        rw [joinNl_cons] at ih ⊢
        simpa using congrArg (c :: ·) ih

theorem splitLines_eq (s : List Char) :
    splitLines s = (splitChCore '\n' s).1 :: (splitChCore '\n' s).2 := rfl

theorem core_fst_of_snd_nil {t : List Char} (h : (splitChCore '\n' t).2 = []) :
    (splitChCore '\n' t).1 = t := by
  have hj := joinNl_splitCore t
  rw [h] at hj
  simpa [joinNl] using hj

theorem joinNl_splitLines (s : List Char) : joinNl (splitLines s) = s :=
  joinNl_splitCore s

/-! ## The pipe shape -/

theorem getLast?_pipe (a : Char) (m : List Char) :
    (a :: m ++ ['|']).getLast? = some '|' := by
  rw [List.getLast?_append_of_ne_nil _ (by simp)]
  rfl

theorem pipeShape_iff (p : Char → Bool) (l : List Char) :
    pipeShape p l = true ↔ ∃ m, m ≠ [] ∧ m.all p ∧ l = '|' :: m ++ ['|'] := by
  constructor
  · intro h
    simp only [pipeShape, Bool.and_eq_true, beq_iff_eq, decide_eq_true_eq] at h
    obtain ⟨⟨⟨hlen, hhd⟩, hlast⟩, hall⟩ := h
    rcases l with _ | ⟨c, l₂⟩
    · simp at hlen
    · have hc : c = '|' := by simpa using hhd
      subst hc
      have hl₂ : l₂ ≠ [] := by
        intro he
        rw [he] at hlen
        simp at hlen
      obtain ⟨m, b, rfl⟩ : ∃ m b, l₂ = m ++ [b] :=
        ⟨l₂.dropLast, l₂.getLast hl₂, (List.dropLast_append_getLast hl₂).symm⟩
      have hb : b = '|' := by
        rw [← List.cons_append, List.getLast?_append_of_ne_nil _ (by simp)]
          at hlast
        simpa using hlast
      subst hb
      refine ⟨m, ?_, ?_, rfl⟩
      · intro he
        rw [he] at hlen
        simp at hlen
      · simpa [List.dropLast_concat] using hall
  · rintro ⟨m, hm, hall, rfl⟩
    have hmlen : 1 ≤ m.length := List.length_pos.mpr hm
    simp only [pipeShape, Bool.and_eq_true, beq_iff_eq, decide_eq_true_eq]
    refine ⟨⟨⟨?_, rfl⟩, getLast?_pipe '|' m⟩, ?_⟩
    · simp
      omega
    · simpa [List.dropLast_concat] using hall

theorem isRowLine_iff (l : List Char) :
    isRowLine l = true ↔ ∃ m, m ≠ [] ∧ m.all dotChar ∧ l = '|' :: m ++ ['|'] :=
  pipeShape_iff dotChar l

theorem isSepRow_iff (row : List Char) :
    isSepRow row = true ↔ ∃ m, m ≠ [] ∧ m.all sepChar ∧
      row.filter (fun c => !jsSpace c) = '|' :: m ++ ['|'] :=
  pipeShape_iff sepChar (row.filter (fun c => !jsSpace c))

theorem rowishP_of_isRowLine {l : List Char} (h : isRowLine l = true) :
    rowishP l := by
  rcases (isRowLine_iff l).mp h with ⟨m, hm, -, rfl⟩
  refine ⟨rfl, getLast?_pipe '|' m, ?_⟩
  have : 1 ≤ m.length := List.length_pos.mpr hm
  simp
  omega

theorem rowishP_iff (l : List Char) :
    rowishP l ↔ ∃ m, m ≠ [] ∧ l = '|' :: m ++ ['|'] := by
  constructor
  · rintro ⟨hhd, hlast, hlen⟩
    rcases l with _ | ⟨c, l₂⟩
    · simp at hlen
    · have hc : c = '|' := by simpa using hhd
      subst hc
      have hl₂ : l₂ ≠ [] := by
        intro he
        rw [he] at hlen
        simp at hlen
      obtain ⟨m, b, rfl⟩ : ∃ m b, l₂ = m ++ [b] :=
        ⟨l₂.dropLast, l₂.getLast hl₂, (List.dropLast_append_getLast hl₂).symm⟩
      have hb : b = '|' := by
        rw [← List.cons_append, List.getLast?_append_of_ne_nil _ (by simp)]
          at hlast
        simpa using hlast
      subst hb
      refine ⟨m, ?_, rfl⟩
      intro he
      rw [he] at hlen
      simp at hlen
  · rintro ⟨m, hm, rfl⟩
    refine ⟨rfl, getLast?_pipe '|' m, ?_⟩
    have : 1 ≤ m.length := List.length_pos.mpr hm
    simp
    omega

/-! ## Escaping preserves line structure and cannot create row lines -/

theorem all_ne_of_all_decide (L : List Char) (a : Char)
    (h : L.all (fun x => !(x == a)) = true) : ∀ x ∈ L, x ≠ a := by
  intro x hx
  simpa using List.all_eq_true.mp h x hx

theorem escChar_cases5 (c : Char) :
    escChar c = [c] ∨ escChar c = "&amp;".data ∨ escChar c = "&lt;".data ∨
      escChar c = "&gt;".data ∨ escChar c = "&nbsp;".data := by
  unfold escChar
  split_ifs <;> simp

theorem escChar_ne_nil (c : Char) : escChar c ≠ [] := by
  rcases escChar_cases5 c with h | h | h | h | h <;> rw [h] <;> simp

theorem escChar_head_pipe {c : Char} (h : (escChar c).head? = some '|') :
    c = '|' := by
  rcases escChar_cases5 c with hc | hc | hc | hc | hc <;> rw [hc] at h
  · simpa using h
  all_goals exact absurd h (by decide)

theorem escChar_last_pipe {c : Char} (h : (escChar c).getLast? = some '|') :
    c = '|' := by
  rcases escChar_cases5 c with hc | hc | hc | hc | hc <;> rw [hc] at h
  · simpa using h
  all_goals exact absurd h (by decide)

theorem escChar_no_nl {c : Char} (hc : c ≠ '\n') : ∀ x ∈ escChar c, x ≠ '\n' := by
  rcases escChar_cases5 c with h | h | h | h | h <;> rw [h]
  · intro x hx
    rw [List.mem_singleton] at hx
    subst hx
    exact hc
  all_goals exact all_ne_of_all_decide _ _ (by decide)

theorem escChar_nonDot {c : Char} (h : dotChar c = false) : escChar c = [c] := by
  have h4 : c = '\n' ∨ c = '\r' ∨ c.val = 0x2028 ∨ c.val = 0x2029 := by
    unfold dotChar at h
    rw [Bool.not_eq_false'] at h
    simp only [Bool.or_eq_true, decide_eq_true_eq] at h
    tauto
  unfold escChar
  split_ifs with h1 h2 h3 hv
  · exact absurd h (by rw [h1]; decide)
  · exact absurd h (by rw [h2]; decide)
  · exact absurd h (by rw [h3]; decide)
  · exfalso
    rcases h4 with rfl | rfl | hw | hw
    · exact absurd hv (by decide)
    · exact absurd hv (by decide)
    · rw [hw] at hv
      exact absurd hv (by decide)
    · rw [hw] at hv
      exact absurd hv (by decide)
  · rfl

theorem escapeL_cons (c : Char) (l : List Char) :
    escapeL (c :: l) = escChar c ++ escapeL l := by
  simp [escapeL]

theorem escapeL_append (a b : List Char) :
    escapeL (a ++ b) = escapeL a ++ escapeL b := by
  simp [escapeL]

theorem escapeL_singleton (c : Char) : escapeL [c] = escChar c := by
  simp [escapeL]

theorem mem_escapeL_of_nonDot {x : Char} {l : List Char} (hx : x ∈ l)
    (hd : dotChar x = false) : x ∈ escapeL l :=
  List.mem_flatMap.mpr ⟨x, hx, by rw [escChar_nonDot hd]; exact List.mem_singleton_self x⟩

theorem splitCore_escapeL (s : List Char) :
    splitChCore '\n' (escapeL s) =
      (escapeL (splitChCore '\n' s).1, (splitChCore '\n' s).2.map escapeL) := by
  induction s with
  | nil => rfl
  | cons c cs ih =>
    by_cases hc : c = '\n'
    · subst hc
      rw [escapeL_cons, show escChar '\n' = ['\n'] from rfl, List.singleton_append,
        splitChCore_cons_sep, splitChCore_cons_sep, ih]
      simp [escapeL]
    · rw [escapeL_cons, splitChCore_append_noSep '\n' _ _ (escChar_no_nl hc), ih,
        splitChCore_cons_ne '\n' c cs hc, ← escapeL_cons]

theorem splitLines_escapeL (s : List Char) :
    splitLines (escapeL s) = (splitLines s).map escapeL := by
  rw [splitLines_eq, splitLines_eq, splitCore_escapeL, List.map_cons]

theorem isRowLine_escapeL {l : List Char} (h : isRowLine (escapeL l) = true) :
    isRowLine l = true := by
  rcases (isRowLine_iff _).mp h with ⟨m', hm', hall', heq⟩
  rcases l with _ | ⟨c, l₂⟩
  · exact absurd heq (by simp [escapeL])
  · rw [escapeL_cons] at heq
    obtain ⟨e, es, hE⟩ : ∃ e es, escChar c = e :: es := by
      rcases hx : escChar c with _ | ⟨e, es⟩
      · exact absurd hx (escChar_ne_nil c)
      · exact ⟨e, es, rfl⟩
    have hc : c = '|' := by
      have h0 : (escChar c ++ escapeL l₂).head? = some '|' := by
        rw [heq]
        rfl
      apply escChar_head_pipe
      rw [hE] at h0 ⊢
      simpa using h0
    subst hc
    have hl₂ : l₂ ≠ [] := by
      rintro rfl
      rw [show escChar '|' ++ escapeL [] = ['|'] from by decide] at heq
      have hlen := congrArg List.length heq
      have h1 : 1 ≤ m'.length := List.length_pos.mpr hm'
      simp only [List.length_cons, List.length_append, List.length_singleton, List.length_nil] at hlen
      omega
    obtain ⟨mid, b, rfl⟩ : ∃ mid b, l₂ = mid ++ [b] :=
      ⟨l₂.dropLast, l₂.getLast hl₂, (List.dropLast_append_getLast hl₂).symm⟩
    have hb : b = '|' := by
      apply escChar_last_pipe
      have hgl : (escChar '|' ++ (escapeL mid ++ escChar b)).getLast? = some '|' := by
        rw [← escapeL_singleton b, ← escapeL_append mid [b], heq]
        exact getLast?_pipe '|' m'
      rw [List.getLast?_append_of_ne_nil _ (fun hnil =>
            escChar_ne_nil b (List.append_eq_nil.mp hnil).2),
        List.getLast?_append_of_ne_nil _ (escChar_ne_nil b)] at hgl
      exact hgl
    subst hb
    apply (isRowLine_iff _).mpr
    refine ⟨mid, ?_, ?_, rfl⟩
    · rintro rfl
      rw [show escapeL ([] ++ ['|']) = ['|'] from by decide] at heq
      rw [show escChar '|' = ['|'] from by decide] at heq
      have hlen := congrArg List.length heq
      have h1 : 1 ≤ m'.length := List.length_pos.mpr hm'
      simp only [List.length_cons, List.length_append, List.length_singleton, List.length_nil] at hlen
      omega
    · rw [List.all_eq_true]
      intro x hx
      by_contra hnd
      have hd : dotChar x = false := by
        revert hnd
        cases dotChar x <;> simp
      have hxin : x ∈ escChar '|' ++ escapeL (mid ++ ['|']) := by
        rw [escapeL_append]
        exact List.mem_append_right _
          (List.mem_append_left _ (mem_escapeL_of_nonDot hx hd))
      rw [heq] at hxin
      have hxp : x ≠ '|' := by
        rintro rfl
        exact absurd hd (by decide)
      rcases List.mem_cons.mp hxin with rfl | hxin
      · exact hxp rfl
      · rcases List.mem_append.mp hxin with hxin | hxin
        · have := List.all_eq_true.mp hall' x hxin
          rw [hd] at this
          cases this
        · exact hxp (List.mem_singleton.mp hxin)

/-! ## The bold substitution cannot create row lines -/

theorem getLast?_cons_of_ne_nil (c : Char) {x : List Char} (h : x ≠ []) :
    (c :: x).getLast? = x.getLast? :=
  List.getLast?_append_of_ne_nil [c] h

theorem ne_nil_of_getLast?_eq_some {l : List Char} {c : Char}
    (h : l.getLast? = some c) : l ≠ [] := by
  rintro rfl
  simp at h

theorem GRel_refl (l : List Char) : GRel l l :=
  ⟨id, fun _ hx _ => hx⟩

theorem FRel_rfl (l : List Char) : FRel l l :=
  ⟨GRel_refl l, id, id, fun h _ => h⟩

theorem FRel_prepend {a b : List Char} (c : Char) (h : FRel a b) :
    FRel (c :: a) (c :: b) := by
  obtain ⟨⟨hrow, hmem⟩, hemp, hlast, hlen⟩ := h
  refine ⟨⟨?_, ?_⟩, ?_, ?_, ?_⟩
  · rintro ⟨hh, hl, hn⟩
    have hc : c = '|' := by simpa using hh
    subst hc
    rcases hb : b with _ | ⟨b₀, bs⟩
    · rw [hb] at hn
      simp at hn
    · rw [hb] at hl hn
      rw [getLast?_cons_of_ne_nil _ (by simp)] at hl
      have hal : a.getLast? = some '|' := hlast (hb ▸ hl)
      have hane : a ≠ [] := ne_nil_of_getLast?_eq_some hal
      have ha2 : 2 ≤ a.length := by
        apply hlen _ (hb ▸ hl)
        rw [hb]
        simp at hn ⊢
        omega
      refine ⟨rfl, ?_, ?_⟩
      · rw [getLast?_cons_of_ne_nil _ hane]
        exact hal
      · simp
        omega
  · intro x hx hxs
    rcases List.mem_cons.mp hx with rfl | hx
    · exact List.mem_cons_self _ _
    · exact List.mem_cons_of_mem _ (hmem x hx hxs)
  · intro h'
    cases h'
  · intro hcb
    rcases hb : b with _ | ⟨b₀, bs⟩
    · rw [hb] at hcb
      have hc : c = '|' := by simpa using hcb
      have hae : a = [] := hemp hb
      rw [hae, hc]
      rfl
    · rw [hb, getLast?_cons_of_ne_nil _ (by simp)] at hcb
      have hal : a.getLast? = some '|' := hlast (hb ▸ hcb)
      have hane : a ≠ [] := ne_nil_of_getLast?_eq_some hal
      rw [getLast?_cons_of_ne_nil _ hane]
      exact hal
  · intro h2 hcb
    rcases hb : b with _ | ⟨b₀, bs⟩
    · rw [hb] at h2
      simp at h2
    · rw [hb, getLast?_cons_of_ne_nil _ (by simp)] at hcb
      have hal : a.getLast? = some '|' := hlast (hb ▸ hcb)
      have hane : a ≠ [] := ne_nil_of_getLast?_eq_some hal
      have : 1 ≤ a.length := List.length_pos.mpr hane
      simp
      omega

theorem strongOpen_no_nl : ∀ c ∈ strongOpen, c ≠ '\n' :=
  all_ne_of_all_decide _ _ (by decide)

theorem strongClose_no_nl : ∀ c ∈ strongClose, c ≠ '\n' :=
  all_ne_of_all_decide _ _ (by decide)

theorem FRel_span2 (t0 : List Char) : FRel ('*' :: '*' :: t0) (strongOpen ++ t0) := by
  refine ⟨⟨?_, ?_⟩, ?_, ?_, ?_⟩
  · rintro ⟨hh, -, -⟩
    exact absurd hh (by simp [strongOpen])
  · intro x hx hxs
    rcases List.mem_cons.mp hx with rfl | hx
    · exact absurd rfl hxs
    rcases List.mem_cons.mp hx with rfl | hx
    · exact absurd rfl hxs
    · exact List.mem_append_right _ hx
  · intro h'
    exact absurd h' (by simp [strongOpen])
  · intro hcb
    have ht0 : t0 ≠ [] := by
      rintro rfl
      rw [List.append_nil] at hcb
      exact absurd hcb (by decide)
    rw [List.getLast?_append_of_ne_nil _ ht0] at hcb
    rw [getLast?_cons_of_ne_nil _ (by simp), getLast?_cons_of_ne_nil _ ht0]
    exact hcb
  · intro _ _
    simp

theorem FRel_span1 {v0 b0 : List Char} (t : List Char) (h : FRel v0 b0) :
    FRel ('*' :: '*' :: (t ++ ('*' :: '*' :: v0)))
      (strongOpen ++ (t ++ (strongClose ++ b0))) := by
  obtain ⟨⟨-, hmem⟩, -, hlast, -⟩ := h
  refine ⟨⟨?_, ?_⟩, ?_, ?_, ?_⟩
  · rintro ⟨hh, -, -⟩
    exact absurd hh (by simp [strongOpen])
  · intro x hx hxs
    rcases List.mem_cons.mp hx with rfl | hx
    · exact absurd rfl hxs
    rcases List.mem_cons.mp hx with rfl | hx
    · exact absurd rfl hxs
    rcases List.mem_append.mp hx with hx | hx
    · exact List.mem_append_right _ (List.mem_append_left _ hx)
    rcases List.mem_cons.mp hx with rfl | hx
    · exact absurd rfl hxs
    rcases List.mem_cons.mp hx with rfl | hx
    · exact absurd rfl hxs
    · exact List.mem_append_right _ (List.mem_append_right _
        (List.mem_append_right _ (hmem x hx hxs)))
  · intro h'
    exact absurd h' (by simp [strongOpen])
  · intro hcb
    rw [List.getLast?_append_of_ne_nil _ (by
        intro hnil
        rcases List.append_eq_nil.mp hnil with ⟨-, h2⟩
        rcases List.append_eq_nil.mp h2 with ⟨h3, -⟩
        exact absurd h3 (by simp [strongClose])),
      List.getLast?_append_of_ne_nil _ (by
        intro hnil
        rcases List.append_eq_nil.mp hnil with ⟨h3, -⟩
        exact absurd h3 (by simp [strongClose]))] at hcb
    have hb0 : b0 ≠ [] := by
      rintro rfl
      rw [List.append_nil] at hcb
      exact absurd hcb (by decide)
    rw [List.getLast?_append_of_ne_nil _ hb0] at hcb
    have hvl : v0.getLast? = some '|' := hlast hcb
    have hvne : v0 ≠ [] := ne_nil_of_getLast?_eq_some hvl
    rw [getLast?_cons_of_ne_nil _ (by simp), getLast?_cons_of_ne_nil _ (by simp),
      List.getLast?_append_of_ne_nil _ (by simp),
      getLast?_cons_of_ne_nil _ (by simp), getLast?_cons_of_ne_nil _ hvne]
    exact hvl
  · intro _ _
    simp

theorem GRel_boundary {v0 b0 : List Char} (tl : List Char) (h : FRel v0 b0) :
    GRel (tl ++ ('*' :: '*' :: v0)) (tl ++ (strongClose ++ b0)) := by
  obtain ⟨⟨-, hmem⟩, -, hlast, -⟩ := h
  constructor
  · rintro ⟨hh, hl, -⟩
    rcases tl with _ | ⟨c, tl'⟩
    · rw [List.nil_append] at hh
      exact absurd hh (by simp [strongClose])
    · have hc : c = '|' := by simpa using hh
      subst hc
      rw [List.getLast?_append_of_ne_nil _ (by
          intro hnil
          exact absurd (List.append_eq_nil.mp hnil).1 (by simp [strongClose]))] at hl
      have hb0 : b0 ≠ [] := by
        rintro rfl
        rw [List.append_nil] at hl
        exact absurd hl (by decide)
      rw [List.getLast?_append_of_ne_nil _ hb0] at hl
      have hvl : v0.getLast? = some '|' := hlast hl
      have hvne : v0 ≠ [] := ne_nil_of_getLast?_eq_some hvl
      refine ⟨rfl, ?_, ?_⟩
      · rw [List.getLast?_append_of_ne_nil _ (by simp),
          getLast?_cons_of_ne_nil _ (by simp), getLast?_cons_of_ne_nil _ hvne]
        exact hvl
      · simp
        omega
  · intro x hx hxs
    rcases List.mem_append.mp hx with hx | hx
    · exact List.mem_append_left _ hx
    rcases List.mem_cons.mp hx with rfl | hx
    · exact absurd rfl hxs
    rcases List.mem_cons.mp hx with rfl | hx
    · exact absurd rfl hxs
    · exact List.mem_append_right _ (List.mem_append_right _ (hmem x hx hxs))

theorem boldGo_succ_eq (f : Nat) (c : Char) (cs : List Char) :
    boldGo (f + 1) (c :: cs) =
      if c = '*' ∧ cs.head? = some '*' then
        (if cs.tail.takeWhile (fun x => x ≠ '*') ≠ [] ∧
            (cs.tail.dropWhile (fun x => x ≠ '*')).head? = some '*' ∧
            (cs.tail.dropWhile (fun x => x ≠ '*')).tail.head? = some '*' then
          strongOpen ++ cs.tail.takeWhile (fun x => x ≠ '*') ++ strongClose ++
            boldGo f (cs.tail.dropWhile (fun x => x ≠ '*')).tail.tail
        else c :: boldGo f cs)
      else c :: boldGo f cs := rfl

theorem boldGo_succ_notSpan (f : Nat) (c : Char) (cs : List Char)
    (h : ¬(c = '*' ∧ cs.head? = some '*')) :
    boldGo (f + 1) (c :: cs) = c :: boldGo f cs := by
  rw [boldGo_succ_eq, if_neg h]

theorem boldGo_succ_noClose (f : Nat) (c : Char) (cs : List Char)
    (h : ¬(cs.tail.takeWhile (fun x => x ≠ '*') ≠ [] ∧
      (cs.tail.dropWhile (fun x => x ≠ '*')).head? = some '*' ∧
      (cs.tail.dropWhile (fun x => x ≠ '*')).tail.head? = some '*')) :
    boldGo (f + 1) (c :: cs) = c :: boldGo f cs := by
  rw [boldGo_succ_eq]
  by_cases h1 : c = '*' ∧ cs.head? = some '*'
  · rw [if_pos h1, if_neg h]
  · rw [if_neg h1]

theorem boldGo_succ_span (f : Nat) (rest : List Char)
    (h : rest.takeWhile (fun x => x ≠ '*') ≠ [] ∧
      (rest.dropWhile (fun x => x ≠ '*')).head? = some '*' ∧
      (rest.dropWhile (fun x => x ≠ '*')).tail.head? = some '*') :
    boldGo (f + 1) ('*' :: '*' :: rest) =
      strongOpen ++ rest.takeWhile (fun x => x ≠ '*') ++ strongClose ++
        boldGo f (rest.dropWhile (fun x => x ≠ '*')).tail.tail := by
  have he : boldGo (f + 1) ('*' :: '*' :: rest) =
      if ('*' : Char) = '*' ∧ ('*' :: rest : List Char).head? = some '*' then
        (if rest.takeWhile (fun x => x ≠ '*') ≠ [] ∧
            (rest.dropWhile (fun x => x ≠ '*')).head? = some '*' ∧
            (rest.dropWhile (fun x => x ≠ '*')).tail.head? = some '*' then
          strongOpen ++ rest.takeWhile (fun x => x ≠ '*') ++ strongClose ++
            boldGo f (rest.dropWhile (fun x => x ≠ '*')).tail.tail
        else '*' :: boldGo f ('*' :: rest))
      else '*' :: boldGo f ('*' :: rest) := rfl
  rw [he, if_pos ⟨rfl, rfl⟩, if_pos h]

theorem boldGo_rel_prepend {cs bf : List Char} (c : Char)
    (hF : FRel (splitChCore '\n' cs).1 (splitChCore '\n' bf).1)
    (hT : List.Forall₂ GRel (splitChCore '\n' cs).2 (splitChCore '\n' bf).2) :
    FRel (splitChCore '\n' (c :: cs)).1 (splitChCore '\n' (c :: bf)).1 ∧
    List.Forall₂ GRel (splitChCore '\n' (c :: cs)).2
      (splitChCore '\n' (c :: bf)).2 := by
  by_cases hc : c = '\n'
  · subst hc
    rw [splitChCore_cons_sep, splitChCore_cons_sep]
    exact ⟨FRel_rfl [], List.Forall₂.cons hF.1 hT⟩
  · rw [splitChCore_cons_ne '\n' c cs hc, splitChCore_cons_ne '\n' c bf hc]
    exact ⟨FRel_prepend c hF, hT⟩

theorem boldGo_rel (fuel : Nat) : ∀ (s : List Char), s.length ≤ fuel →
    FRel (splitChCore '\n' s).1 (splitChCore '\n' (boldGo fuel s)).1 ∧
    List.Forall₂ GRel (splitChCore '\n' s).2
      (splitChCore '\n' (boldGo fuel s)).2 := by
  induction fuel with
  | zero =>
    intro s _
    rw [show boldGo 0 s = s from rfl]
    exact ⟨FRel_rfl _, List.forall₂_same.mpr fun x _ => GRel_refl x⟩
  | succ f ih =>
    intro s hs
    rcases s with _ | ⟨c, cs⟩
    · rw [show boldGo (f + 1) [] = [] from rfl]
      exact ⟨FRel_rfl _, List.Forall₂.nil⟩
    · have hcslen : cs.length ≤ f := by
        simp only [List.length_cons] at hs
        omega
      by_cases h1 : c = '*' ∧ cs.head? = some '*'
      · obtain ⟨rfl, hh⟩ := h1
        rcases cs with _ | ⟨c₂, rest⟩
        · simp at hh
        have hc₂ : c₂ = '*' := by simpa using hh
        subst hc₂
        by_cases h2 : rest.takeWhile (fun x => x ≠ '*') ≠ [] ∧
            (rest.dropWhile (fun x => x ≠ '*')).head? = some '*' ∧
            (rest.dropWhile (fun x => x ≠ '*')).tail.head? = some '*'
        · obtain ⟨ht, hu1, hu2⟩ := h2
          obtain ⟨v, hud⟩ :
              ∃ v, rest.dropWhile (fun x => x ≠ '*') = '*' :: '*' :: v := by
            rcases hx : rest.dropWhile (fun x => x ≠ '*') with _ | ⟨u₁, u'⟩
            · rw [hx] at hu1
              simp at hu1
            rcases u' with _ | ⟨u₂, v⟩
            · rw [hx] at hu2
              simp at hu2
            have e₁ : u₁ = '*' := by
              rw [hx] at hu1
              simpa using hu1
            have e₂ : u₂ = '*' := by
              rw [hx] at hu2
              simpa using hu2
            exact ⟨v, by rw [e₁, e₂]⟩
          have hp := List.takeWhile_append_dropWhile (fun x => x ≠ '*') rest
          have hsplit : rest = rest.takeWhile (fun x => x ≠ '*') ++ ('*' :: '*' :: v) := by
            rw [← hud]
            exact hp.symm
          have houtput : boldGo (f + 1) ('*' :: '*' :: rest) =
              strongOpen ++ (rest.takeWhile (fun x => x ≠ '*') ++
                (strongClose ++ boldGo f v)) := by
            rw [boldGo_succ_span f rest ⟨ht, hu1, hu2⟩, hud]
            simp only [List.tail_cons]
            simp [List.append_assoc]
          obtain ⟨t, htdef⟩ : ∃ t, rest.takeWhile (fun x => x ≠ '*') = t := ⟨_, rfl⟩
          rw [htdef] at hsplit houtput
          have htne : t ≠ [] := htdef ▸ ht
          have htstar : ∀ x ∈ t, x ≠ '*' := by
            intro x hx
            rw [← htdef] at hx
            simpa using List.mem_takeWhile_imp hx
          have hvlen : v.length ≤ f := by
            have h6 := congrArg List.length hsplit
            simp only [List.length_cons] at hs
            simp only [List.length_append, List.length_cons] at h6
            omega
          obtain ⟨ihF, ihT⟩ := ih v hvlen
          rw [houtput, hsplit]
          rw [splitChCore_cons_ne '\n' '*' _ (by decide),
            splitChCore_cons_ne '\n' '*' _ (by decide),
            splitChCore_append '\n' t ('*' :: '*' :: v),
            splitChCore_cons_ne '\n' '*' _ (by decide),
            splitChCore_cons_ne '\n' '*' _ (by decide),
            splitChCore_append_noSep '\n' strongOpen _ strongOpen_no_nl,
            splitChCore_append '\n' t (strongClose ++ boldGo f v),
            splitChCore_append_noSep '\n' strongClose _ strongClose_no_nl]
          by_cases hts : (splitChCore '\n' t).2 = []
          · rw [if_pos hts, if_pos hts, core_fst_of_snd_nil hts]
            exact ⟨FRel_span1 t ihF, ihT⟩
          · rw [if_neg hts, if_neg hts]
            exact ⟨FRel_span2 _,
              forall₂_append (List.forall₂_same.mpr fun x _ => GRel_refl x)
                (List.Forall₂.cons (GRel_boundary _ ihF) ihT)⟩
        · rw [boldGo_succ_noClose f '*' ('*' :: rest) h2]
          obtain ⟨ihF, ihT⟩ := ih ('*' :: rest) hcslen
          exact boldGo_rel_prepend '*' ihF ihT
      · rw [boldGo_succ_notSpan f c cs h1]
        obtain ⟨ihF, ihT⟩ := ih cs hcslen
        exact boldGo_rel_prepend c ihF ihT

theorem isRowLine_transfer {l l' : List Char} (hG : GRel l l')
    (h : isRowLine l' = true) : isRowLine l = true := by
  obtain ⟨hrow, hmem⟩ := hG
  have hr := hrow (rowishP_of_isRowLine h)
  rcases (rowishP_iff l).mp hr with ⟨m, hm, rfl⟩
  rcases (isRowLine_iff l').mp h with ⟨m', -, hall', hleq⟩
  apply (isRowLine_iff _).mpr
  refine ⟨m, hm, ?_, rfl⟩
  rw [List.all_eq_true]
  intro x hx
  by_contra hnd
  have hd : dotChar x = false := by
    revert hnd
    cases dotChar x <;> simp
  have hxs : x ≠ '*' := by
    rintro rfl
    exact absurd hd (by decide)
  have hxp : x ≠ '|' := by
    rintro rfl
    exact absurd hd (by decide)
  have hxl : x ∈ ('|' :: m ++ ['|']) :=
    List.mem_cons_of_mem _ (List.mem_append_left _ hx)
  have hxl' := hmem x hxl hxs
  rw [hleq] at hxl'
  rcases List.mem_cons.mp hxl' with rfl | hxl'
  · exact hxp rfl
  rcases List.mem_append.mp hxl' with hxm | hxl'
  · have := List.all_eq_true.mp hall' x hxm
    rw [hd] at this
    cases this
  · exact hxp (List.mem_singleton.mp hxl')

theorem noRow_boldSub_escapeL {raw : List Char}
    (h : ∀ l ∈ splitLines raw, isRowLine l = false) :
    ∀ l' ∈ splitLines (boldSub (escapeL raw)), isRowLine l' = false := by
  intro l' hl'
  obtain ⟨hF, hT⟩ := boldGo_rel (escapeL raw).length (escapeL raw) (le_refl _)
  rw [splitLines_eq] at hl'
  have hpair : ∃ e ∈ splitLines (escapeL raw), GRel e l' := by
    rcases List.mem_cons.mp hl' with rfl | hl'
    · exact ⟨(splitChCore '\n' (escapeL raw)).1,
        by rw [splitLines_eq]; exact List.mem_cons_self _ _, hF.1⟩
    · rcases forall₂_mem_right hT hl' with ⟨e, he, hge⟩
      exact ⟨e, by rw [splitLines_eq]; exact List.mem_cons_of_mem _ he, hge⟩
  rcases hpair with ⟨e, he, hge⟩
  rw [splitLines_escapeL] at he
  rcases List.mem_map.mp he with ⟨l, hl, rfl⟩
  by_contra hne
  have hl'row : isRowLine l' = true := by
    revert hne
    cases isRowLine l' <;> simp
  have h2 := isRowLine_escapeL (isRowLine_transfer hge hl'row)
  rw [h l hl] at h2
  cases h2

theorem parseGo_eq (f : Nat) (l : List Char) (ls : List (List Char)) :
    parseGo (f + 1) (l :: ls) =
      if isRowLine l then
        Item.table (mkTable (l :: ls.takeWhile isRowLine))
          :: parseGo f (ls.dropWhile isRowLine)
      else Item.text l :: parseGo f ls := rfl

theorem parseGo_noRow : ∀ (f : Nat) (ls : List (List Char)), ls.length ≤ f →
    (∀ l ∈ ls, isRowLine l = false) → parseGo f ls = ls.map Item.text := by
  intro f
  induction f with
  | zero =>
    intro ls _ _
    rfl
  | succ f ih =>
    intro ls hls h
    rcases ls with _ | ⟨l, ls⟩
    · rfl
    · have hrow := h l (List.mem_cons_self _ _)
      rw [parseGo_eq, if_neg (by simp [hrow]),
        ih ls (by simp only [List.length_cons] at hls; omega)
          (fun x hx => h x (List.mem_cons_of_mem _ hx))]
      rfl

theorem formatL_noRow {raw : List Char}
    (h : ∀ l ∈ splitLines raw, isRowLine l = false) :
    formatL raw = replaceNl (boldSub (escapeL raw)) := by
  have hnr := noRow_boldSub_escapeL h
  simp only [formatL]
  rw [show parseItems (splitLines (boldSub (escapeL raw))) =
      parseGo (splitLines (boldSub (escapeL raw))).length
        (splitLines (boldSub (escapeL raw))) from rfl]
  rw [parseGo_noRow _ _ (le_refl _) hnr, List.map_map]
  rw [show (renderItem ∘ Item.text) = id from funext fun l => rfl, List.map_id,
    joinNl_splitLines]

/-! ## Controller lemmas -/

theorem filter_status_split (l : List MEntry) :
    (l.filter (fun s => s.status == Status.present)).length +
      (l.filter (fun s => s.status == Status.absent)).length = l.length := by
  induction l with
  | nil => rfl
  | cons e es ih =>
    cases he : e.status <;>
      simp only [List.filter_cons, he, List.length_cons] <;>
      simp <;> omega

theorem loadRecordsActs_page {st : RState} {q : RQuery}
    (h : ActR.fetchQ q ∈ loadRecordsActs st) : q.page = st.page := by
  unfold loadRecordsActs at h
  by_cases hv : recValid st = true
  · rw [if_pos hv] at h
    have h2 := List.mem_singleton.mp h
    cases h2
    rfl
  · rw [if_neg (by simpa using hv)] at h
    cases h

theorem markInv_step {st : MarkState} (h : markInv st) (e : MEv) :
    markInv (stepMark st e).1 := by
  cases e with
  | pageEnter today =>
    intro hen
    simp [stepMark] at hen
  | selChange o d sess =>
    intro hen
    simp [stepMark] at hen
  | loadClick ro =>
    show markInv (loadMark st ro).1
    unfold loadMark
    by_cases hv : jsTruthyNat st.selSection = true ∧ st.selDate ≠ ""
    · rw [if_pos hv]
      rcases ro with _ | data
      · intro _
        exact ⟨hv.1, hv.2, rfl, rfl, rfl⟩
      · intro _
        exact ⟨hv.1, hv.2, rfl, rfl, rfl⟩
    · rw [if_neg hv]
      exact h
  | toggle id =>
    intro hen
    exact h hen
  | allPresent =>
    intro hen
    exact h hen
  | allAbsent =>
    intro hen
    exact h hen
  | search s =>
    intro hen
    exact h hen
  | saveClick ok ro =>
    show markInv (saveMark st ok ro).1
    unfold saveMark
    by_cases h1 : st.saveEnabled = true
    · rw [if_neg (by simp [h1])]
      by_cases h2 : saveGuard st = true
      · rw [if_neg (by simp [h2])]
        cases ok
        · rw [if_neg (by simp)]
          intro _
          exact h h1
        · rw [if_pos rfl]
          obtain ⟨hs1, hs2, -, -, -⟩ := h h1
          unfold loadMark
          rw [if_pos ⟨hs1, hs2⟩]
          rcases ro with _ | data
          · intro _
            exact ⟨hs1, hs2, rfl, rfl, rfl⟩
          · intro _
            exact ⟨hs1, hs2, rfl, rfl, rfl⟩
      · rw [if_pos (by simpa using h2)]
        exact h
    · rw [if_pos (by simpa using h1)]
      exact h

theorem markInv_run (today : String) (es : List MEv) :
    markInv (runMark today es) := by
  have hinit : markInv (initMark today) := by
    intro hen
    simp [initMark] at hen
  unfold runMark
  revert hinit
  generalize initMark today = st0
  induction es generalizing st0 with
  | nil =>
    intro h
    exact h
  | cons e es ih =>
    intro h
    exact ih _ (markInv_step h e)

/-! # Claim theorems -/

/-- Claim C1, counterexample: the block `"|A|" / "| |" / "|1|"` is a run of
table-row lines whose second row, with all whitespace removed (`"||"`),
consists only of pipes — yet the parser does not treat it as a separator
(the regex `^\|[\-\:|]+\|$` needs a character between the pipes), so no
header is produced and the second row is kept as a body row.  This refutes
the claimed "if and only if". -/
theorem claim_c1_counterexample :
    isRowLine "| |".data = true ∧
    specSeparatorOnly "| |".data = true ∧
    (mkTable ["|A|".data, "| |".data, "|1|".data]).header = none ∧
    formatAiMessage "|A|\n| |\n|1|" =
      "<table class=\"chat-table\"><tr><td>A</td></tr><tr><td></td></tr><tr><td>1</td></tr></table>" := by
  refine ⟨by decide, by decide, by decide, by decide⟩

/-- Claim C1 (amended): a captured block has a header if and only if it has
at least two rows and its second row, with all whitespace removed, is a
pipe, then one or more characters that are only pipes, dashes and colons,
then a pipe (i.e. consists only of pipes, dashes and colons *and* has at
least one character between the outer pipes); in that case the second row
is discarded and the first row's cells become header cells, otherwise every
row is a body row.  The two concrete examples of the claim hold as stated. -/
theorem claim_c1 :
    (∀ rows : List (List Char),
      ((mkTable rows).header.isSome = true ↔
        2 ≤ rows.length ∧ ∃ m, m ≠ [] ∧ m.all sepChar ∧
          (rows.getD 1 []).filter (fun c => !jsSpace c) = '|' :: m ++ ['|'])) ∧
    formatAiMessage "|A|B|\n|--|--|\n|1|2|" =
      "<table class=\"chat-table\"><tr><th>A</th><th>B</th></tr><tr><td>1</td><td>2</td></tr></table>" ∧
    formatAiMessage "|A|B|\n|1|2|" =
      "<table class=\"chat-table\"><tr><td>A</td><td>B</td></tr><tr><td>1</td><td>2</td></tr></table>" := by
  refine ⟨?_, by decide, by decide⟩
  intro rows
  by_cases hc : 2 ≤ rows.length ∧ isSepRow (rows.getD 1 []) = true
  · have he : mkTable rows =
        Tbl.mk (some (cellsOf (rows.headD []))) ((rows.drop 2).map cellsOf) := by
      unfold mkTable
      rw [if_pos hc]
    rw [he]
    exact iff_of_true rfl ⟨hc.1, (isSepRow_iff _).mp hc.2⟩
  · have he : mkTable rows = Tbl.mk none (rows.map cellsOf) := by
      unfold mkTable
      rw [if_neg hc]
    rw [he]
    refine iff_of_false (by simp) ?_
    rintro ⟨h2, hm⟩
    exact hc ⟨h2, (isSepRow_iff _).mpr hm⟩

/-- Claim C1, witness: the header iff applied to the standard example. -/
theorem claim_c1_witness :
    (mkTable ["|A|B|".data, "|--|--|".data, "|1|2|".data]).header.isSome = true :=
  (claim_c1.1 _).mpr ⟨by decide, "--|--".data, by decide, by decide, by decide⟩

/-- Claim C2, counterexample: the line `" |a|b| "` satisfies the table-row
shape after trimming, but the code applies `^\|.+\|$` to the untrimmed
line, so it is not classified as a table row: the whole message renders as
plain text, with no table. -/
theorem claim_c2_counterexample :
    specRowAfterTrim " |a|b| ".data = true ∧
    isRowLine " |a|b| ".data = false ∧
    formatAiMessage " |a|b| " = " |a|b| " := by
  refine ⟨by decide, by decide, by decide⟩

/-- Claim C2 (amended): a line is classified as a table-row exactly when
the line itself — with no trimming — begins with a pipe, ends with a pipe,
and has at least one interior character (all interior characters being
non-line-terminators, which `.` requires); a line that has the shape only
after trimming, such as `" |a|b| "`, is treated as plain text. -/
theorem claim_c2 :
    (∀ l : List Char, isRowLine l = true ↔
      ∃ m, m ≠ [] ∧ m.all dotChar ∧ l = '|' :: m ++ ['|']) ∧
    formatAiMessage " |a|b| " = " |a|b| " :=
  ⟨isRowLine_iff, by decide⟩

/-- Claim C2, witness: the characterization applied to the line `"|ab|"`. -/
theorem claim_c2_witness : isRowLine "|ab|".data = true :=
  (claim_c2.1 _).mpr ⟨"ab".data, by decide, by decide, by decide⟩

/-- Claim C3: for any input string none of whose lines matches the
table-row shape, the formatter produces no table structure — the scanning
loop returns every line as a plain-text item — and the output is exactly
the input passed through escaping, the bold substitution and newline-to-
`<br>` conversion.  The formatter is a total function, so it never raises
on any input. -/
theorem claim_c3 (raw : String)
    (h : ∀ l ∈ splitLines raw.data, isRowLine l = false) :
    parseItems (splitLines (boldSub (escapeL raw.data))) =
      (splitLines (boldSub (escapeL raw.data))).map Item.text ∧
    formatAiMessage raw = String.mk (replaceNl (boldSub (escapeL raw.data))) := by
  refine ⟨parseGo_noRow _ _ (le_refl _) (noRow_boldSub_escapeL h), ?_⟩
  show String.mk (formatL raw.data) = _
  rw [formatL_noRow h]

/-- Claim C3, witness: a two-line message with markup but no pipe rows. -/
theorem claim_c3_witness :
    (∀ l ∈ splitLines "hello\nworld *b* <i>".data, isRowLine l = false) ∧
    (parseItems (splitLines (boldSub (escapeL "hello\nworld *b* <i>".data))) =
      (splitLines (boldSub (escapeL "hello\nworld *b* <i>".data))).map Item.text ∧
    formatAiMessage "hello\nworld *b* <i>" =
      String.mk (replaceNl (boldSub (escapeL "hello\nworld *b* <i>".data)))) :=
  ⟨by decide, claim_c3 "hello\nworld *b* <i>" (by decide)⟩

/-- Claim C4: the renderer escapes structural markup before the bold
substitution: `"**x**"` becomes strong-emphasis markup around `x` (the
inserted tags are not themselves escaped), `"<b>"` becomes the escaped
literal, and an input mixing both shows no double-escaping. -/
theorem claim_c4 :
    formatAiMessage "**x**" = "<strong>x</strong>" ∧
    formatAiMessage "<b>" = "&lt;b&gt;" ∧
    formatAiMessage "**x** & <b>" = "<strong>x</strong> &amp; &lt;b&gt;" := by
  refine ⟨by decide, by decide, by decide⟩

/-- Claim C10: the bold substitution runs on the whole message before table
detection, so a `**…**` pair inside a table-row line becomes strong-emphasis
markup inside the resulting table cell. -/
theorem claim_c10 :
    formatAiMessage "a\n|**x**|y|" =
      "a<br><table class=\"chat-table\"><tr><td><strong>x</strong></td><td>y</td></tr></table>" := by
  decide

/-- Claim C5: after any event history, a save transmits exactly the ids of
the students whose in-memory status is absent (an id is in the posted list
iff some roster entry carries it with status absent; present students are
never transmitted), and a successful save issues a roster reload for the
same (section, date, session) key that was posted. -/
theorem claim_c5 (today : String) (es : List MEv) (ok : Bool)
    (ro : Option (List SEntry)) (sec : Nat) (d sess : String) (ids : List Nat)
    (hpost : ActM.post sec d sess ids ∈
      (stepMark (runMark today es) (.saveClick ok ro)).2) :
    (∀ i, i ∈ ids ↔ ∃ e ∈ (runMark today es).roster,
      e.student_id = i ∧ e.status = Status.absent) ∧
    (ok = true → ActM.fetchRoster sec d sess ∈
      (stepMark (runMark today es) (.saveClick ok ro)).2) := by
  have hinv := markInv_run today es
  set st := runMark today es with hst
  rw [show stepMark st (MEv.saveClick ok ro) = saveMark st ok ro from rfl]
    at hpost ⊢
  unfold saveMark at hpost ⊢
  by_cases h1 : st.saveEnabled = true
  · rw [if_neg (by simp [h1])] at hpost ⊢
    by_cases h2 : saveGuard st = true
    · rw [if_neg (by simp [h2])] at hpost ⊢
      obtain ⟨hsec, hdate, hcs, hcd, hcsess⟩ := hinv h1
      cases ok
      · rw [if_neg (by simp)] at hpost ⊢
        rcases List.mem_cons.mp hpost with heq | hpost2
        · rw [ActM.post.injEq] at heq
          obtain ⟨rfl, rfl, rfl, rfl⟩ := heq
          constructor
          · intro i
            simp only [absentIds, List.mem_map, List.mem_filter]
            constructor
            · rintro ⟨e, ⟨hein, habs⟩, rfl⟩
              exact ⟨e, hein, rfl, by simpa using habs⟩
            · rintro ⟨e, hein, hid, hstat⟩
              exact ⟨e, ⟨hein, by simp [hstat]⟩, hid⟩
          · intro hok
            exact absurd hok (by simp)
        · exact absurd (List.mem_singleton.mp hpost2) (by simp)
      · rw [if_pos rfl] at hpost ⊢
        rcases List.mem_cons.mp hpost with heq | hpost2
        · rw [ActM.post.injEq] at heq
          obtain ⟨rfl, rfl, rfl, rfl⟩ := heq
          constructor
          · intro i
            simp only [absentIds, List.mem_map, List.mem_filter]
            constructor
            · rintro ⟨e, ⟨hein, habs⟩, rfl⟩
              exact ⟨e, hein, rfl, by simpa using habs⟩
            · rintro ⟨e, hein, hid, hstat⟩
              exact ⟨e, ⟨hein, by simp [hstat]⟩, hid⟩
          · intro _
            apply List.mem_cons_of_mem
            apply List.mem_cons_of_mem
            unfold loadMark
            rw [if_pos ⟨hsec, hdate⟩]
            rcases ro with _ | data
            · rw [hcs, hcd, hcsess]
              simp
            · rw [hcs, hcd, hcsess]
              simp
        · rcases List.mem_cons.mp hpost2 with heq2 | hpost3
          · exact absurd heq2 (by simp)
          · exfalso
            revert hpost3
            unfold loadMark
            rw [if_pos ⟨hsec, hdate⟩]
            rcases ro with _ | data <;> simp
    · rw [if_pos (by simpa using h2)] at hpost
      exact absurd hpost (by simp)
  · rw [if_pos (by simpa using h1)] at hpost
    exact absurd hpost (by simp)

/-- Claim C5, witness: the general theorem applied to a concrete loaded
roster where exactly student 7 is absent, with a successful save. -/
theorem claim_c5_witness :
    (∀ i, i ∈ [7] ↔ ∃ e ∈ (runMark "2026-01-01" exampleMarkEvents).roster,
      e.student_id = i ∧ e.status = Status.absent) ∧
    (true = true → ActM.fetchRoster 1 "2026-01-01" "morning" ∈
      (stepMark (runMark "2026-01-01" exampleMarkEvents)
        (.saveClick true none)).2) :=
  claim_c5 "2026-01-01" exampleMarkEvents true none 1 "2026-01-01" "morning"
    [7] (by decide)

/-- Claim C6: over any event history, the derived summary satisfies
total = present + absent with all three computed over the full roster (the
absent count equals the number of roster entries whose status is absent),
and a change of the display text filter changes only the stored search
text: the roster, every status, and hence the derived counts are untouched
and no request is issued. -/
theorem claim_c6 (today : String) (es : List MEv) (s : String) :
    markTotal (runMark today es) =
      markPresent (runMark today es) + markAbsent (runMark today es) ∧
    markAbsent (runMark today es) =
      ((runMark today es).roster.filter
        (fun e => e.status == Status.absent)).length ∧
    stepMark (runMark today es) (.search s) =
      ({ runMark today es with searchText := s }, []) := by
  have hsplit := filter_status_split (runMark today es).roster
  have hle := List.length_filter_le
    (fun e => e.status == Status.present) (runMark today es).roster
  refine ⟨?_, ?_, rfl⟩
  · unfold markAbsent markTotal markPresent
    omega
  · unfold markAbsent markTotal markPresent
    omega

/-- Claim C7: a failed save leaves the controller state completely
unchanged — roster statuses, the saved (section, date, session) key, the
editing-mode flag, the selectors and the enabled save button are all as
before the save — and, whenever the save actually ran (button enabled and
key valid), the error is surfaced as a toast. -/
theorem claim_c7 (st : MarkState) (ro : Option (List SEntry)) :
    (stepMark st (.saveClick false ro)).1 = st ∧
    (st.saveEnabled = true → saveGuard st = true →
      ActM.toastErr ∈ (stepMark st (.saveClick false ro)).2) := by
  constructor
  · show (saveMark st false ro).1 = st
    unfold saveMark
    by_cases h1 : st.saveEnabled = true
    · rw [if_neg (by simp [h1])]
      by_cases h2 : saveGuard st = true
      · rw [if_neg (by simp [h2]), if_neg (by simp)]
        show { st with saveEnabled := true } = st
        cases st
        simp_all
      · rw [if_pos (by simpa using h2)]
    · rw [if_pos (by simpa using h1)]
  · intro h1 h2
    show ActM.toastErr ∈ (saveMark st false ro).2
    unfold saveMark
    rw [if_neg (by simp [h1]), if_neg (by simp [h2]), if_neg (by simp)]
    simp

/-- Claim C7, witness: a failed save from a concrete Ready state. -/
theorem claim_c7_witness :
    (stepMark exampleMarkReady (.saveClick false none)).1 = exampleMarkReady ∧
    ActM.toastErr ∈ (stepMark exampleMarkReady (.saveClick false none)).2 :=
  ⟨(claim_c7 exampleMarkReady none).1,
   (claim_c7 exampleMarkReady none).2 rfl (by decide)⟩

/-- Claim C8: in the students view, changing the search text, the section
filter or the page size resets the page to 1 and the issued fetch carries
page 1, while a sort-column change keeps the page and fetches with the
unchanged page; in the records view, changing the search text, the page
size or the section/date/session filter resets the page to 1 and any fetch
that is issued carries page 1. -/
theorem claim_c8 (sst : SState) (rst : RState) (s s2 : String) (o : Option Nat)
    (n n2 : Nat) (c : String) (o2 : Option Nat) (d sess : String) :
    stepS sst (.search s) = ({ sst with search := s, page := 1 },
      [.fetchQ (SQuery.mk 1 sst.perPage sst.sortBy sst.sectionId s)]) ∧
    stepS sst (.filter o) = ({ sst with sectionId := o, page := 1 },
      [.fetchQ (SQuery.mk 1 sst.perPage sst.sortBy o sst.search)]) ∧
    stepS sst (.perPage n) = ({ sst with perPage := n, page := 1 },
      [.fetchQ (SQuery.mk 1 n sst.sortBy sst.sectionId sst.search)]) ∧
    stepS sst (.sort c) = ({ sst with sortBy := c },
      [.fetchQ (SQuery.mk sst.page sst.perPage c sst.sectionId sst.search)]) ∧
    (stepS sst (.sort c)).1.page = sst.page ∧
    stepR rst (.search s2) = ({ rst with search := s2, page := 1 },
      loadRecordsActs { rst with search := s2, page := 1 }) ∧
    stepR rst (.perPage n2) = ({ rst with perPage := n2, page := 1 },
      loadRecordsActs { rst with perPage := n2, page := 1 }) ∧
    stepR rst (.selChange o2 d sess) =
      ({ rst with selSection := o2, selDate := d, selSession := sess, page := 1 },
       loadRecordsActs
         { rst with selSection := o2, selDate := d, selSession := sess, page := 1 }) ∧
    (∀ q : RQuery, ActR.fetchQ q ∈ (stepR rst (.search s2)).2 → q.page = 1) ∧
    (∀ q : RQuery, ActR.fetchQ q ∈ (stepR rst (.perPage n2)).2 → q.page = 1) ∧
    (∀ q : RQuery, ActR.fetchQ q ∈ (stepR rst (.selChange o2 d sess)).2 →
      q.page = 1) := by
  refine ⟨rfl, rfl, rfl, rfl, rfl, rfl, rfl, rfl, ?_, ?_, ?_⟩
  · intro q hq
    exact (loadRecordsActs_page hq).trans rfl
  · intro q hq
    exact (loadRecordsActs_page hq).trans rfl
  · intro q hq
    exact (loadRecordsActs_page hq).trans rfl

/-- Claim C8, witness: a concrete records search issues a page-1 fetch. -/
theorem claim_c8_witness :
    (querifyR { exampleRecordsState with search := "x", page := 1 }).page = 1 :=
  (claim_c8 initS exampleRecordsState "" "x" none 10 10 "name" none "" "").2.2.2.2.2.2.2.2.1
    (querifyR { exampleRecordsState with search := "x", page := 1 }) (by decide)

/-- Claim C9: in both list views, pressing Previous on page 1 and pressing
Next on the last page (ceil(total / perPage), or 1 when that is 0) leave
the page and every other part of the query state unchanged, and re-issue
the fetch for that same unchanged state (in the records view, only when the
filter is valid, exactly as any other load). -/
theorem claim_c9 (sst : SState) (rst : RState) :
    (sst.page = 1 → stepS sst .prev = (sst, [.fetchQ (querifyS sst)])) ∧
    (sst.page = totalPagesS sst →
      stepS sst .next = (sst, [.fetchQ (querifyS sst)])) ∧
    (rst.page = 1 → stepR rst .prev = (rst, loadRecordsActs rst)) ∧
    (rst.page = totalPagesR rst →
      stepR rst .next = (rst, loadRecordsActs rst)) := by
  refine ⟨?_, ?_, ?_, ?_⟩
  · intro h
    simp [stepS, h]
  · intro h
    simp [stepS, h]
  · intro h
    simp [stepR, h]
  · intro h
    simp [stepR, h]

/-- Claim C9, witness: boundary presses on concrete first/last pages. -/
theorem claim_c9_witness :
    stepS initS .prev = (initS, [.fetchQ (querifyS initS)]) ∧
    stepS initS .next = (initS, [.fetchQ (querifyS initS)]) ∧
    stepR exampleRecordsState .prev =
      (exampleRecordsState, loadRecordsActs exampleRecordsState) ∧
    stepR exampleRecordsState .next =
      (exampleRecordsState, loadRecordsActs exampleRecordsState) :=
  ⟨(claim_c9 initS exampleRecordsState).1 rfl,
   (claim_c9 initS exampleRecordsState).2.1 (by decide),
   (claim_c9 initS exampleRecordsState).2.2.1 rfl,
   (claim_c9 initS exampleRecordsState).2.2.2 (by decide)⟩

end MainJs
